import Mathlib

/-!
Shallow embedding of the JsonEditor application core (a browser JSON editor:
text validation, tree view, substring search with navigation, gzip/Base64
transport).  Text is modelled as `List Char`; the host platform's string
routines (`toLowerCase`, `indexOf`, `trim`) are embedded character-wise.
External collaborators (the JSON parser, the gzip codec, Base64, the text
decoder) are passed in as explicit fallible functions.
-/

namespace JsonEditor

/-- A search hit `{start, end}` into the raw text.  The source field `end` is
a Lean keyword, so it is called `stop` here. -/
structure MatchSpan where
  start : Nat
  stop : Nat
  deriving DecidableEq, Repr

/-- `text.toLowerCase()`, embedded character-wise. -/
def toLowerStr (s : List Char) : List Char := s.map Char.toLower

/-- `q` occurs in `t` at position `i` (the comparison done by `indexOf`). -/
def matchesAt (t q : List Char) (i : Nat) : Bool :=
  (t.drop i).take q.length == q

/-- Fuel-driven scan underlying `indexOf`: try positions `s, s+1, ...`. -/
def indexOfFromAux (t q : List Char) : Nat → Nat → Option Nat
  | 0, _ => none
  | fuel + 1, s => if matchesAt t q s then some s else indexOfFromAux t q fuel (s + 1)

/-- `t.indexOf(q, s)` for non-empty `q`: the least occurrence position `≥ s`,
`none` standing for the source's `-1`. -/
def indexOfFrom (t q : List Char) (s : Nat) : Option Nat :=
  indexOfFromAux t q (t.length + 1 - s) s

/-- The `while ((index = lowerText.indexOf(lowerQuery, startIndex)) > -1)` loop
of the search effect: push `{start: index, end: index + query.length}` and
resume the search at `index + 1`. -/
def findAllLoop (t q : List Char) : Nat → Nat → List MatchSpan
  | 0, _ => []
  | fuel + 1, s =>
    match indexOfFrom t q s with
    | none => []
    | some i => ⟨i, i + q.length⟩ :: findAllLoop t q fuel (i + 1)

/-- The search-logic effect as a function of the document text and the query:
an empty query (falsy `searchText`) yields no matches, otherwise both strings
are lowercased and scanned left to right. -/
def findAll (text query : List Char) : List MatchSpan :=
  if query.isEmpty then []
  else findAllLoop (toLowerStr text) (toLowerStr query) ((toLowerStr text).length + 1) 0

/-- The two navigation buttons of `handleSearchNav`. -/
inductive SearchDirection where
  | next
  | prev
  deriving DecidableEq, Repr

/-- The index update inside `handleSearchNav`: `±1`, then the two wrap
checks in source order (overshoot to `0` first, then undershoot to
`length - 1`).  The index is an `Int` because the host numbers are signed. -/
def navNewIndex (len : Nat) (currentMatchIndex : Int) (direction : SearchDirection) : Int :=
  let newIndex : Int :=
    match direction with
    | .next => currentMatchIndex + 1
    | .prev => currentMatchIndex - 1
  let newIndex : Int := if newIndex ≥ (len : Int) then 0 else newIndex
  let newIndex : Int := if newIndex < 0 then (len : Int) - 1 else newIndex
  newIndex

/-- `handleSearchNav` as a function from the current index to the new one:
early return when there are no matches. -/
def handleSearchNav (searchMatches : List MatchSpan) (currentMatchIndex : Int)
    (direction : SearchDirection) : Int :=
  if searchMatches.length = 0 then currentMatchIndex
  else navNewIndex searchMatches.length currentMatchIndex direction

/-- Pressing the Next button `k` times in a row starting from index `c`. -/
def pressNext (searchMatches : List MatchSpan) : Nat → Int → Int
  | 0, c => c
  | k + 1, c => pressNext searchMatches k (handleSearchNav searchMatches c .next)

/-- The pieces of component state `handleSearchNav` can touch: the match
list, the current index, and the textarea selection set by `scrollToMatch`. -/
structure SearchState where
  searchMatches : List MatchSpan
  currentMatchIndex : Int
  selection : Option (Nat × Nat)
  deriving DecidableEq, Repr

/-- `scrollToMatch(index)`: when the index denotes a real match, move the
textarea selection to `[match.start, match.end)`; otherwise do nothing. -/
def scrollToMatch (st : SearchState) (index : Int) : SearchState :=
  if h : 0 < st.searchMatches.length ∧ 0 ≤ index ∧ index < (st.searchMatches.length : Int) then
    have hlt : index.toNat < st.searchMatches.length := by omega
    let m := st.searchMatches.get ⟨index.toNat, hlt⟩
    { st with selection := some (m.start, m.stop) }
  else st

/-- `handleSearchNav` at the level of the whole search state: with no matches
it returns before touching anything; otherwise it stores the new index and
scrolls to the selected match. -/
def handleSearchNavState (st : SearchState) (direction : SearchDirection) : SearchState :=
  if st.searchMatches.length = 0 then st
  else
    let newIndex := navNewIndex st.searchMatches.length st.currentMatchIndex direction
    scrollToMatch { st with currentMatchIndex := newIndex } newIndex

/-- Parsed JSON data, the value shape produced by the external parser.
Numbers are abstracted as integers (no claim depends on float formatting). -/
inductive JsonValue where
  | null
  | bool (b : Bool)
  | num (n : Int)
  | str (s : List Char)
  | arr (items : List JsonValue)
  | obj (entries : List (List Char × JsonValue))

/-- Host `trim` whitespace class (space, tab, line terminators, NBSP, BOM). -/
def isJsWhitespace (c : Char) : Bool :=
  c = ' ' || c = '\t' || c = '\n' || c = '\r' || c = '\x0b' || c = '\x0c' ||
  c = '\u00A0' || c = '\u2028' || c = '\u2029' || c = '\uFEFF'

/-- `s.trim()`: strip leading and trailing whitespace. -/
def trimText (s : List Char) : List Char :=
  ((s.dropWhile isJsWhitespace).reverse.dropWhile isJsWhitespace).reverse

/-- The three outcomes of the validation effect: `(parsedJson, error)` is
`(null, null)`, `(parsed, null)` or `(null, message)`. -/
inductive ValidateOutcome where
  | noContent
  | valid (v : JsonValue)
  | invalid (msg : List Char)

/-- The validation effect: blank text short-circuits to the no-content
outcome, otherwise the external parser decides between value and error. -/
def validate (parseJson : List Char → Except (List Char) JsonValue)
    (text : List Char) : ValidateOutcome :=
  if (trimText text).isEmpty then .noContent
  else
    match parseJson text with
    | .ok parsed => .valid parsed
    | .error e => .invalid e

/-- The external collaborators of `handleDecodeGzip`, each step fallible the
way a thrown exception is: Base64 decoding (`atob`), gzip inflation
(`pako.ungzip`), byte-to-text decoding (`TextDecoder`), JSON parsing, and
pretty-printing (`JSON.stringify(v, null, 2)`). -/
structure GzipService where
  atob : List Char → Except (List Char) (List Nat)
  ungzip : List Nat → Except (List Char) (List Nat)
  decodeText : List Nat → Except (List Char) (List Char)
  parseJson : List Char → Except (List Char) JsonValue
  stringifyPretty : JsonValue → List Char

/-- The component state `handleDecodeGzip` can read or write. -/
structure DecodeState where
  jsonText : List Char
  gzipInput : List Char
  gzipError : Option (List Char)
  deriving Repr

/-- `handleDecodeGzip`: clear the error, ignore blank input, then run
Base64 → ungzip → text decode; any failure lands in the catch block which
reports `Decompression failed: ...` and touches nothing else.  On success the
decompressed string is pretty-printed into the editor when it parses as JSON
and inserted verbatim when it does not. -/
def handleDecodeGzip (ext : GzipService) (st : DecodeState) : DecodeState :=
  let st := { st with gzipError := none }
  if (trimText st.gzipInput).isEmpty then st
  else
    match ext.atob st.gzipInput with
    | .error e => { st with gzipError := some ("Decompression failed: ".toList ++ e) }
    | .ok compressed =>
      match ext.ungzip compressed with
      | .error e => { st with gzipError := some ("Decompression failed: ".toList ++ e) }
      | .ok decompressed =>
        match ext.decodeText decompressed with
        | .error e => { st with gzipError := some ("Decompression failed: ".toList ++ e) }
        | .ok resultString =>
          match ext.parseJson resultString with
          | .ok parsed => { st with jsonText := ext.stringifyPretty parsed }
          | .error _ => { st with jsonText := resultString }

/-- The decode pipeline of `handleDecodeGzip` throws with message `e`:
either Base64 decoding, or gzip inflation, or text decoding fails. -/
def decodePipelineFails (ext : GzipService) (input : List Char) (e : List Char) : Prop :=
  ext.atob input = .error e ∨
  (∃ c, ext.atob input = .ok c ∧ ext.ungzip c = .error e) ∨
  (∃ c d, ext.atob input = .ok c ∧ ext.ungzip c = .ok d ∧ ext.decodeText d = .error e)

/-- The primitive-value rendering of `JsonNode` (the non-container branch):
strings are wrapped in double quotes by a template literal, booleans use
`toString`, null the literal `null`; containers never reach this code. -/
def renderPrimitiveValue : JsonValue → Option (List Char)
  | .str s => some ('"' :: (s ++ ['"']))
  | .num n => some (toString n).toList
  | .bool b => some (toString b).toList
  | .null => some "null".toList
  | .arr _ => none
  | .obj _ => none

/-- The text of a whole primitive line of `JsonNode`: the optional
`"name":` prefix, the rendered value, and a trailing comma when the node is
not the last sibling. -/
def renderPrimitiveLine (name : Option (List Char)) (value : JsonValue)
    (isLast : Bool) : List Char :=
  (match name with
   | some n => '"' :: (n ++ ['"', ':'])
   | none => []) ++
  ((renderPrimitiveValue value).getD []) ++
  (if isLast then [] else [','])

/-! ### Lemmas about the search scan -/

/-- An occurrence of a non-empty pattern fits inside the text. -/
theorem matchesAt_bound {t q : List Char} {i : Nat} (hq : q ≠ [])
    (h : matchesAt t q i = true) : i + q.length ≤ t.length := by
  unfold matchesAt at h
  have he : (t.drop i).take q.length = q := by simpa using h
  have hlen : ((t.drop i).take q.length).length = q.length := by rw [he]
  simp only [List.length_take, List.length_drop] at hlen
  have hq' : 0 < q.length := List.length_pos.mpr hq
  omega

/-- Soundness of the `indexOf` scan: a hit is the least occurrence `≥ s`. -/
theorem indexOfFromAux_some {t q : List Char} :
    ∀ {fuel s i : Nat}, indexOfFromAux t q fuel s = some i →
      s ≤ i ∧ i < s + fuel ∧ matchesAt t q i = true ∧
        ∀ j, s ≤ j → j < i → matchesAt t q j = false := by
  intro fuel
  induction fuel with
  | zero => intro s i h; simp [indexOfFromAux] at h
  | succ fuel ih =>
    intro s i h
    unfold indexOfFromAux at h
    by_cases hm : matchesAt t q s
    · simp only [hm, if_pos, Option.some.injEq] at h
      subst h
      exact ⟨Nat.le_refl s, by omega, hm, fun j hj1 hj2 => absurd hj1 (by omega)⟩
    · simp only [hm, if_neg, Bool.false_eq_true] at h
      obtain ⟨h1, h2, h3, h4⟩ := ih h
      refine ⟨by omega, by omega, h3, fun j hj1 hj2 => ?_⟩
      rcases Nat.eq_or_lt_of_le hj1 with hj | hj
      · subst hj; simpa using hm
      · exact h4 j hj hj2

/-- Completeness of the `indexOf` scan: a miss means no occurrence in the
scanned window. -/
theorem indexOfFromAux_none {t q : List Char} :
    ∀ {fuel s : Nat}, indexOfFromAux t q fuel s = none →
      ∀ j, s ≤ j → j < s + fuel → matchesAt t q j = false := by
  intro fuel
  induction fuel with
  | zero => intro s _ j hj1 hj2; omega
  | succ fuel ih =>
    intro s h j hj1 hj2
    unfold indexOfFromAux at h
    by_cases hm : matchesAt t q s
    · simp [hm] at h
    · simp only [hm, if_neg, Bool.false_eq_true] at h
      rcases Nat.eq_or_lt_of_le hj1 with hj | hj
      · subst hj; simpa using hm
      · exact ih h j hj (by omega)

/-- `indexOf` returns the least occurrence at or after the start position. -/
theorem indexOfFrom_some {t q : List Char} {s i : Nat}
    (h : indexOfFrom t q s = some i) :
    s ≤ i ∧ matchesAt t q i = true ∧ ∀ j, s ≤ j → j < i → matchesAt t q j = false := by
  obtain ⟨h1, _, h3, h4⟩ := indexOfFromAux_some h
  exact ⟨h1, h3, h4⟩

/-- `indexOf` returning `-1` means the pattern does not occur at or after the
start position. -/
theorem indexOfFrom_none {t q : List Char} (hq : q ≠ []) {s : Nat}
    (h : indexOfFrom t q s = none) :
    ∀ j, s ≤ j → matchesAt t q j = false := by
  intro j hj
  by_cases hm : matchesAt t q j
  · have hb := matchesAt_bound hq hm
    have hq' : 0 < q.length := List.length_pos.mpr hq
    have := indexOfFromAux_none h j hj (by omega)
    simp_all
  · simpa using hm

/-- The scan loop collects exactly the occurrence positions from `s` on, in
increasing order, as spans of the pattern's length. -/
theorem findAllLoop_eq (t q : List Char) (hq : q ≠ []) :
    ∀ (fuel s : Nat), t.length + 1 - s ≤ fuel →
      findAllLoop t q fuel s =
        ((List.range' s (t.length - s)).filter (fun i => matchesAt t q i)).map
          (fun i => MatchSpan.mk i (i + q.length)) := by
  intro fuel
  induction fuel with
  | zero =>
    intro s hf
    have h0 : t.length - s = 0 := by omega
    simp [findAllLoop, h0]
  | succ fuel ih =>
    intro s hf
    rcases h : indexOfFrom t q s with _ | i
    · have hnil : (List.range' s (t.length - s)).filter (fun i => matchesAt t q i) = [] := by
        refine List.filter_eq_nil_iff.mpr fun a ha => ?_
        have hm := List.mem_range'_1.mp ha
        simpa using indexOfFrom_none hq h a hm.1
      simp [findAllLoop, h, hnil]
    · obtain ⟨hsi, hmi, hmin⟩ := indexOfFrom_some h
      have hbound := matchesAt_bound hq hmi
      have hq' : 0 < q.length := List.length_pos.mpr hq
      have hsplit : List.range' s (t.length - s) =
          List.range' s (i - s) ++ List.range' i (t.length - i) := by
        have happ := List.range'_append_1 s (i - s) (t.length - i)
        rw [show s + (i - s) = i by omega] at happ
        rw [show (t.length - i) + (i - s) = t.length - s by omega] at happ
        exact happ.symm
      have hcons : List.range' i (t.length - i) =
          i :: List.range' (i + 1) (t.length - (i + 1)) := by
        rw [show t.length - i = (t.length - (i + 1)) + 1 by omega, List.range'_succ]
      have hfilnil : (List.range' s (i - s)).filter (fun j => matchesAt t q j) = [] := by
        refine List.filter_eq_nil_iff.mpr fun a ha => ?_
        have hm := List.mem_range'_1.mp ha
        simpa using hmin a hm.1 (by omega)
      rw [findAllLoop, h, hsplit, List.filter_append, hfilnil, hcons]
      simp only [List.nil_append, List.filter_cons, hmi, if_pos, List.map_cons]
      rw [ih (i + 1) (by omega)]

/-- `findAll` on a non-empty query: exactly the occurrence positions of the
lowercased query in the lowercased text, in increasing order, each recorded
as the span `[i, i + query.length)`. -/
theorem findAll_eq_occurrences (text query : List Char) (hq : query ≠ []) :
    findAll text query =
      ((List.range text.length).filter
          (fun i => matchesAt (toLowerStr text) (toLowerStr query) i)).map
        (fun i => MatchSpan.mk i (i + query.length)) := by
  have hq2 : toLowerStr query ≠ [] := by simpa [toLowerStr] using hq
  have hlen : (toLowerStr text).length = text.length := by simp [toLowerStr]
  have hqlen : (toLowerStr query).length = query.length := by simp [toLowerStr]
  rw [findAll, if_neg (by simpa using hq)]
  rw [findAllLoop_eq (toLowerStr text) (toLowerStr query) hq2 _ 0 (by omega)]
  rw [List.range_eq_range']
  simp [hlen, hqlen]

/-! ### Lemmas about navigation -/

/-- With matches present and a non-negative index, a Next press is a
successor with wrap-around to `0` at the top. -/
theorem handleSearchNav_next_eq {searchMatches : List MatchSpan} {c : Int}
    (hne : searchMatches ≠ []) (hc : 0 ≤ c) :
    handleSearchNav searchMatches c .next =
      if c + 1 ≥ (searchMatches.length : Int) then 0 else c + 1 := by
  have hlen : searchMatches.length ≠ 0 := by simpa using hne
  simp only [handleSearchNav, navNewIndex, hlen, if_false]
  split_ifs <;> omega

/-- With matches present and an index in range, a Prev press is a
predecessor with wrap-around to `length - 1` at the bottom. -/
theorem handleSearchNav_prev_eq {searchMatches : List MatchSpan} {c : Int}
    (hne : searchMatches ≠ []) (hc : 0 ≤ c)
    (hlt : c < (searchMatches.length : Int)) :
    handleSearchNav searchMatches c .prev =
      if c - 1 < 0 then (searchMatches.length : Int) - 1 else c - 1 := by
  have hlen : searchMatches.length ≠ 0 := by simpa using hne
  simp only [handleSearchNav, navNewIndex, hlen, if_false]
  split_ifs <;> omega

/-- Repeated Next presses advance the index linearly until the single
wrap-around step back to `0`. -/
theorem pressNext_eq {searchMatches : List MatchSpan} (hne : searchMatches ≠ []) :
    ∀ (k : Nat) (c : Int), 0 ≤ c → c < (searchMatches.length : Int) →
      c + k ≤ (searchMatches.length : Int) →
      pressNext searchMatches k c =
        if c + k = (searchMatches.length : Int) then 0 else c + k := by
  intro k
  induction k with
  | zero =>
    intro c h0 h1 h2
    rw [pressNext, if_neg (by omega)]
    omega
  | succ k ih =>
    intro c h0 h1 h2
    rw [pressNext, handleSearchNav_next_eq hne h0]
    by_cases hw : c + 1 ≥ (searchMatches.length : Int)
    · have hk : k = 0 := by omega
      subst hk
      rw [if_pos hw, pressNext, if_pos (by omega)]
    · rw [if_neg hw]
      rw [ih (c + 1) (by omega) (by omega) (by push_cast at h2 ⊢; omega)]
      split_ifs <;> push_cast at * <;> omega

/-! ### Lemmas about validation -/

/-- Trimming a fully-whitespace string leaves nothing. -/
theorem trimText_eq_nil {s : List Char} (h : ∀ c ∈ s, isJsWhitespace c) :
    trimText s = [] := by
  have h1 : s.dropWhile isJsWhitespace = [] := List.dropWhile_eq_nil_iff.mpr h
  simp [trimText, h1]

/-! ### Claim theorems -/

/-- C1: for every text and every non-empty query, `findAll` lowercases both
text and query and scans left to right restarting at the previous match start
plus one; the resulting match set is exactly the spans `[i, i + query.length)`
over the occurrence positions `i` of the lowered query in the lowered text,
in increasing order. -/
theorem claim_C1_findAll_scan (text query : List Char) (hq : query ≠ []) :
    findAll text query =
      ((List.range text.length).filter
          (fun i => matchesAt (toLowerStr text) (toLowerStr query) i)).map
        (fun i => MatchSpan.mk i (i + query.length)) :=
  findAll_eq_occurrences text query hq

/-- Witness for C1 at a concrete mixed-case text and query. -/
theorem claim_C1_witness :
    findAll ("Abc1abc".toList) ("ABC".toList) =
      ((List.range ("Abc1abc".toList).length).filter
          (fun i => matchesAt (toLowerStr ("Abc1abc".toList)) (toLowerStr ("ABC".toList)) i)).map
        (fun i => MatchSpan.mk i (i + ("ABC".toList).length)) :=
  claim_C1_findAll_scan ("Abc1abc".toList) ("ABC".toList) (by decide)

/-- C2 is false as stated: the scan restarts at the previous match start plus
one, so the spans of `findAll "aaa" "aa"` are `[0,2)` and `[1,3)`, which
overlap; the match set is not pairwise non-overlapping. -/
theorem claim_C2_counterexample :
    ¬ List.Pairwise (fun a b : MatchSpan => a.stop ≤ b.start)
        (findAll ("aaa".toList) ("aa".toList)) := by
  decide

/-- C2 (amended): every match set produced by `findAll` is sorted by start
strictly ascending and each span satisfies `0 ≤ start < end ≤ text.length`;
consecutive spans may overlap, because the next search resumes at the
previous start plus one rather than at its end. -/
theorem claim_C2_matchset_invariants (text query : List Char) :
    List.Pairwise (fun a b : MatchSpan => a.start < b.start) (findAll text query) ∧
      ∀ m ∈ findAll text query, 0 ≤ m.start ∧ m.start < m.stop ∧ m.stop ≤ text.length := by
  by_cases hq : query = []
  · subst hq; simp [findAll]
  · rw [findAll_eq_occurrences text query hq]
    constructor
    · refine List.pairwise_map.mpr ?_
      refine List.Pairwise.imp ?_ (List.Pairwise.filter _ (List.pairwise_lt_range _))
      intro a b hab
      simpa using hab
    · intro m hm
      simp only [List.mem_map, List.mem_filter, List.mem_range] at hm
      obtain ⟨i, ⟨hir, hio⟩, rfl⟩ := hm
      have hq2 : toLowerStr query ≠ [] := by simpa [toLowerStr] using hq
      have hb := matchesAt_bound hq2 hio
      simp only [toLowerStr, List.length_map] at hb
      have hq3 : 0 < query.length := List.length_pos.mpr hq
      exact ⟨Nat.zero_le _, by simp; omega, by simpa using hb⟩

/-- C3: with a non-empty match set of length `N` and an index in `[0, N)`,
Next is a successor wrapping past `N - 1` to `0`, Prev is a predecessor
wrapping below `0` to `N - 1`; `N` Next presses from `0` return to `0`, and
one Prev press from `0` yields `N - 1`. -/
theorem claim_C3_navigation_cyclic (searchMatches : List MatchSpan) (c : Int)
    (hne : searchMatches ≠ []) (h0 : 0 ≤ c)
    (h1 : c < (searchMatches.length : Int)) :
    (handleSearchNav searchMatches c .next =
        if c + 1 > (searchMatches.length : Int) - 1 then 0 else c + 1) ∧
      (handleSearchNav searchMatches c .prev =
        if c - 1 < 0 then (searchMatches.length : Int) - 1 else c - 1) ∧
      pressNext searchMatches searchMatches.length 0 = 0 ∧
      handleSearchNav searchMatches 0 .prev = (searchMatches.length : Int) - 1 := by
  have hpos : 0 < searchMatches.length := List.length_pos.mpr hne
  refine ⟨?_, ?_, ?_, ?_⟩
  · rw [handleSearchNav_next_eq hne h0]
    split_ifs <;> omega
  · exact handleSearchNav_prev_eq hne h0 h1
  · rw [pressNext_eq hne searchMatches.length 0 (by omega) (by omega) (by omega)]
    simp
  · rw [handleSearchNav_prev_eq hne (by omega) (by omega)]
    simp

/-- Witness for C3 on a three-element match set at index 1. -/
theorem claim_C3_witness :
    (handleSearchNav [⟨0, 1⟩, ⟨2, 3⟩, ⟨4, 5⟩] 1 .next =
        if (1 : Int) + 1 > (([⟨0, 1⟩, ⟨2, 3⟩, ⟨4, 5⟩] : List MatchSpan).length : Int) - 1
        then 0 else 1 + 1) ∧
      (handleSearchNav [⟨0, 1⟩, ⟨2, 3⟩, ⟨4, 5⟩] 1 .prev =
        if (1 : Int) - 1 < 0
        then (([⟨0, 1⟩, ⟨2, 3⟩, ⟨4, 5⟩] : List MatchSpan).length : Int) - 1 else 1 - 1) ∧
      pressNext [⟨0, 1⟩, ⟨2, 3⟩, ⟨4, 5⟩] ([⟨0, 1⟩, ⟨2, 3⟩, ⟨4, 5⟩] : List MatchSpan).length 0 = 0 ∧
      handleSearchNav [⟨0, 1⟩, ⟨2, 3⟩, ⟨4, 5⟩] 0 .prev =
        (([⟨0, 1⟩, ⟨2, 3⟩, ⟨4, 5⟩] : List MatchSpan).length : Int) - 1 :=
  claim_C3_navigation_cyclic [⟨0, 1⟩, ⟨2, 3⟩, ⟨4, 5⟩] 1 (by decide) (by decide) (by decide)

/-- C4: with an empty match set, `handleSearchNav` is a no-op on the whole
search state for either direction: the current index and every other piece
of state are unchanged. -/
theorem claim_C4_nav_noop_when_empty (st : SearchState) (direction : SearchDirection)
    (h : st.searchMatches = []) :
    handleSearchNavState st direction = st ∧
      (handleSearchNavState st direction).currentMatchIndex = st.currentMatchIndex := by
  have hlen : st.searchMatches.length = 0 := by simp [h]
  constructor <;> simp [handleSearchNavState, hlen]

/-- Witness for C4: empty matches, stale index 5, both directions. -/
theorem claim_C4_witness :
    (handleSearchNavState ⟨[], 5, none⟩ .next = ⟨[], 5, none⟩ ∧
        (handleSearchNavState ⟨[], 5, none⟩ .next).currentMatchIndex =
          (⟨[], 5, none⟩ : SearchState).currentMatchIndex) ∧
      (handleSearchNavState ⟨[], 5, none⟩ .prev = ⟨[], 5, none⟩ ∧
        (handleSearchNavState ⟨[], 5, none⟩ .prev).currentMatchIndex =
          (⟨[], 5, none⟩ : SearchState).currentMatchIndex) :=
  ⟨claim_C4_nav_noop_when_empty ⟨[], 5, none⟩ .next rfl,
   claim_C4_nav_noop_when_empty ⟨[], 5, none⟩ .prev rfl⟩

/-- C5: the empty query produces an empty match set on every text, not a
match at every position. -/
theorem claim_C5_empty_query (text : List Char) : findAll text [] = [] := by
  simp [findAll]

/-- C6: on empty or whitespace-only text the validation effect yields the
distinct third outcome: no parsed value and no error message. -/
theorem claim_C6_blank_text_no_outcome
    (parseJson : List Char → Except (List Char) JsonValue) (text : List Char)
    (h : ∀ c ∈ text, isJsWhitespace c) :
    validate parseJson text = .noContent ∧
      (∀ v, validate parseJson text ≠ .valid v) ∧
      (∀ m, validate parseJson text ≠ .invalid m) := by
  have ht := trimText_eq_nil h
  refine ⟨?_, ?_, ?_⟩ <;> simp [validate, ht]

/-- Witness for C6 on the text of a space and a newline, with a parser that
would reject it. -/
theorem claim_C6_witness :
    validate (fun _ => Except.error ("boom".toList)) (" \n".toList) = .noContent ∧
      (∀ v, validate (fun _ => Except.error ("boom".toList)) (" \n".toList) ≠ .valid v) ∧
      (∀ m, validate (fun _ => Except.error ("boom".toList)) (" \n".toList) ≠ .invalid m) :=
  claim_C6_blank_text_no_outcome (fun _ => Except.error ("boom".toList)) (" \n".toList)
    (by decide)

/-- C7: whenever the decode pipeline fails (bad Base64, corrupt payload, or
undecodable bytes), `handleDecodeGzip` reports a decompression error and
leaves the document text unchanged. -/
theorem claim_C7_decode_failure_atomic (ext : GzipService) (st : DecodeState)
    (e : List Char) (hne : (trimText st.gzipInput).isEmpty = false)
    (hfail : decodePipelineFails ext st.gzipInput e) :
    (handleDecodeGzip ext st).jsonText = st.jsonText ∧
      (handleDecodeGzip ext st).gzipError =
        some ("Decompression failed: ".toList ++ e) := by
  unfold handleDecodeGzip
  rcases hfail with h | ⟨c, hc, h⟩ | ⟨c, d, hc, hd, h⟩
  · simp [hne, h]
  · simp [hne, h, hc]
  · simp [hne, h, hc, hd]

/-- Witness for C7: a service whose Base64 step rejects the input. -/
theorem claim_C7_witness :
    (handleDecodeGzip
        ⟨fun _ => Except.error ("bad base64".toList), fun b => Except.ok b,
         fun _ => Except.ok [], fun _ => Except.error [], fun _ => []⟩
        ⟨"doc".toList, "xyz".toList, none⟩).jsonText = "doc".toList ∧
      (handleDecodeGzip
        ⟨fun _ => Except.error ("bad base64".toList), fun b => Except.ok b,
         fun _ => Except.ok [], fun _ => Except.error [], fun _ => []⟩
        ⟨"doc".toList, "xyz".toList, none⟩).gzipError =
        some ("Decompression failed: ".toList ++ "bad base64".toList) :=
  claim_C7_decode_failure_atomic _ _ _ (by decide) (Or.inl rfl)

/-- C8: when decompression succeeds and yields text that is not valid JSON,
no error is reported: the decompressed string is loaded into the document
verbatim, silently falling back from pretty-printing to raw insert. -/
theorem claim_C8_decode_nonjson_raw_insert (ext : GzipService) (st : DecodeState)
    (c d : List Nat) (r e : List Char)
    (hne : (trimText st.gzipInput).isEmpty = false)
    (hatob : ext.atob st.gzipInput = .ok c)
    (hun : ext.ungzip c = .ok d)
    (hdec : ext.decodeText d = .ok r)
    (hparse : ext.parseJson r = .error e) :
    handleDecodeGzip ext st = { st with jsonText := r, gzipError := none } := by
  unfold handleDecodeGzip
  simp [hne, hatob, hun, hdec, hparse]

/-- Witness for C8: the pipeline succeeds with the non-JSON text `hello`. -/
theorem claim_C8_witness :
    handleDecodeGzip
        ⟨fun _ => Except.ok [1], fun _ => Except.ok [2],
         fun _ => Except.ok ("hello".toList), fun _ => Except.error ("SyntaxError".toList),
         fun _ => []⟩
        ⟨"doc".toList, "xyz".toList, some ("old".toList)⟩ =
      { jsonText := "hello".toList, gzipInput := "xyz".toList, gzipError := none } :=
  claim_C8_decode_nonjson_raw_insert _ _ [1] [2] ("hello".toList) ("SyntaxError".toList)
    (by decide) rfl rfl rfl rfl

/-- C9: a String primitive is rendered by the tree model as the stored
string surrounded by double quotes, character for character, with no
re-escaping, both alone and within a full primitive line. -/
theorem claim_C9_string_rendered_verbatim (s name : List Char) (isLast : Bool) :
    renderPrimitiveValue (JsonValue.str s) = some ('"' :: (s ++ ['"'])) ∧
      (((renderPrimitiveValue (JsonValue.str s)).getD []).drop 1).dropLast = s ∧
      renderPrimitiveLine (some name) (JsonValue.str s) isLast =
        ('"' :: (name ++ ['"', ':'])) ++ ('"' :: (s ++ ['"'])) ++
          (if isLast then [] else [',']) ∧
      renderPrimitiveLine none (JsonValue.str s) isLast =
        ('"' :: (s ++ ['"'])) ++ (if isLast then [] else [',']) := by
  refine ⟨rfl, ?_, ?_, ?_⟩
  · simp [renderPrimitiveValue]
  · simp [renderPrimitiveLine, renderPrimitiveValue]
  · simp [renderPrimitiveLine, renderPrimitiveValue]

/-- C10: with a non-empty match set, `handleSearchNav` lands in `[0, N)` for
every integer index, in range or stale, and either direction: the overshoot
check clamps to `0` first, then the undershoot check clamps to `N - 1`. -/
theorem claim_C10_nav_index_in_range (searchMatches : List MatchSpan) (c : Int)
    (direction : SearchDirection) (hne : searchMatches ≠ []) :
    0 ≤ handleSearchNav searchMatches c direction ∧
      handleSearchNav searchMatches c direction < (searchMatches.length : Int) := by
  have hlen : searchMatches.length ≠ 0 := by simpa using hne
  have hpos : 0 < searchMatches.length := Nat.pos_of_ne_zero hlen
  simp only [handleSearchNav, navNewIndex, hlen, if_false]
  cases direction <;> split_ifs <;> constructor <;> omega

/-- Witness for C10 at the stale index `-7` on a singleton match set. -/
theorem claim_C10_witness :
    0 ≤ handleSearchNav [⟨0, 1⟩] (-7) .next ∧
      handleSearchNav [⟨0, 1⟩] (-7) .next < (([⟨0, 1⟩] : List MatchSpan).length : Int) :=
  claim_C10_nav_index_in_range [⟨0, 1⟩] (-7) .next (by decide)

end JsonEditor
